import Mathlib

/-!
Shallow embedding of the tamper-evident audit-log subsystem of the
`nodelogger` repository (src/src/audit/chain.ts, src/src/audit/logger.ts,
src/src/audit/config.ts, src/src/audit/types.ts and the store/sink module),
together with theorems settling the frozen claims about it.

Modelling conventions:
* JavaScript `Date` values are modelled by their epoch-millisecond value
  (`Int`); the code only compares dates numerically and converts them to
  ISO strings inside the externally supplied serializer.
* The external crypto/serialization primitives (`createHash(alg).update(s)
  .digest("hex")` and `JSON.stringify` over the fixed-shape hash-input
  object, the latter composed with `Date.toISOString`) are modelled by a
  `CryptoModel` record of opaque total functions; every chain theorem is
  proved for an arbitrary `CryptoModel`, and concrete evaluations use an
  explicit executable `toyCrypto` instance.
* `Array.prototype.sort` (stable since ES2019) with an integer-difference
  comparator is modelled by `List.insertionSort`, which is a stable sort
  by the comparator key.
* Optional (possibly-`undefined`) fields are modelled with `Option`;
  JavaScript truthiness tests on strings (`if (s)`) additionally exclude
  the empty string, and are modelled as such where the source relies on it.
-/

namespace NodeLogger

/-- Hash algorithm options (config.ts `HashAlgorithm`). -/
inductive HashAlgorithm
  | sha256
  | sha512
deriving DecidableEq

/-- Audit event types (types.ts `EventType`). -/
inductive EventType
  | auth
  | authz
  | data_access
  | data_modify
  | config_change
  | admin_action
  | security_event
  | user_lifecycle
  | api_access
  | system
  | custom
deriving DecidableEq

/-- Outcome of an audit event (types.ts `Outcome`). -/
inductive Outcome
  | success
  | failure
  | pending
  | unknown
deriving DecidableEq

/-- Actor information (types.ts `AuditActor`); `metadata` is a free-form
string map modelled as an association list. -/
structure AuditActor where
  id : Option String
  type : Option String
  name : Option String
  ip : Option String
  userAgent : Option String
  sessionId : Option String
  metadata : Option (List (String × String))
deriving DecidableEq

/-- Resource information (types.ts `AuditResource`). -/
structure AuditResource where
  id : Option String
  type : Option String
  name : Option String
  path : Option String
  metadata : Option (List (String × String))
deriving DecidableEq

/-- Distributed tracing context (types.ts `TraceContext`). -/
structure TraceContext where
  traceId : Option String
  spanId : Option String
  parentSpanId : Option String
  traceFlags : Option Int
  traceState : Option String
deriving DecidableEq

/-- Error block of an audit event (types.ts `AuditEvent.error`). -/
structure ErrorInfo where
  code : Option String
  message : Option String
  stack : Option String
deriving DecidableEq

/-- Audit event structure (types.ts `AuditEvent`). -/
structure AuditEvent where
  type : EventType
  action : String
  outcome : Outcome
  description : Option String
  actor : Option AuditActor
  actorId : Option String
  actorType : Option String
  actorIp : Option String
  resource : Option AuditResource
  resourceId : Option String
  resourceType : Option String
  trace : Option TraceContext
  requestId : Option String
  data : Option (List (String × String))
  tags : Option (List String)
  durationMs : Option Int
  error : Option ErrorInfo
deriving DecidableEq

/-- Hash chain values stored on an entry (chain.ts `ChainEntry`). -/
structure ChainEntry where
  hash : String
  previousHash : String
  sequence : Int
deriving DecidableEq

/-- Service metadata snapshot stored on an entry (types.ts
`AuditEntry.service`). -/
structure ServiceInfo where
  name : String
  version : String
  environment : String
deriving DecidableEq

/-- Stored audit entry (types.ts `AuditEntry`); `timestamp` is the `Date`
value in epoch milliseconds. -/
structure AuditEntry where
  id : String
  timestamp : Int
  event : AuditEvent
  service : Option ServiceInfo
  chain : Option ChainEntry
  signature : Option String
deriving DecidableEq

/-- The fixed-shape object hashed by `HashChain.computeHash` (chain.ts,
lines 44-49): exactly the entry's `id`, `timestamp`, `event` and the
supplied `previousHash`, and nothing else. -/
structure HashInput where
  id : String
  timestamp : Int
  event : AuditEvent
  previousHash : String

/-- External primitives used by the chain: `digest alg s` models
`createHash(alg).update(s).digest("hex")`; `stringifyData` models
`JSON.stringify` applied to the hash-input object (with the timestamp
rendered via `Date.toISOString`). Both are opaque total functions; chain
theorems hold for every choice. -/
structure CryptoModel where
  digest : HashAlgorithm → String → String
  stringifyData : HashInput → String

/-- Running state of a `HashChain` instance: its private `previousHash`
and `sequence` fields (chain.ts, lines 19-20). -/
structure ChainState where
  previousHash : String
  sequence : Int
deriving DecidableEq

/-- chain.ts `computeGenesisHash` (lines 31-35): the digest of the fixed
string "GENESIS". -/
def computeGenesisHash (CM : CryptoModel) (alg : HashAlgorithm) : String :=
  CM.digest alg "GENESIS"

/-- chain.ts constructor (lines 22-26): a fresh chain starts at the
genesis hash with sequence 0. -/
def initChain (CM : CryptoModel) (alg : HashAlgorithm) : ChainState :=
  { previousHash := computeGenesisHash CM alg, sequence := 0 }

/-- chain.ts `computeHash` (lines 40-53): digest of the serialized
`{id, timestamp, event, previousHash}` object. -/
def computeHash (CM : CryptoModel) (alg : HashAlgorithm) (e : AuditEntry)
    (previousHash : String) : String :=
  CM.digest alg (CM.stringifyData
    { id := e.id, timestamp := e.timestamp, event := e.event,
      previousHash := previousHash })

/-- chain.ts `addEntry` (lines 58-69): returns the chain values for the
entry and the advanced running state. -/
def addEntry (CM : CryptoModel) (alg : HashAlgorithm) (st : ChainState)
    (e : AuditEntry) : ChainEntry × ChainState :=
  let h := computeHash CM alg e st.previousHash
  ({ hash := h, previousHash := st.previousHash, sequence := st.sequence },
   { previousHash := h, sequence := st.sequence + 1 })

/-- chain.ts `verifyEntry` (lines 74-81): recompute the digest from the
entry's own fields and a caller-supplied previous hash; `false` when the
entry carries no chain data. -/
def verifyEntry (CM : CryptoModel) (alg : HashAlgorithm) (e : AuditEntry)
    (expectedPreviousHash : String) : Bool :=
  match e.chain with
  | none => false
  | some c => computeHash CM alg e expectedPreviousHash == c.hash

/-- Sort key used by `verifyChain` (chain.ts line 96):
`entry.chain?.sequence ?? 0`. -/
def seqKey (e : AuditEntry) : Int :=
  match e.chain with
  | some c => c.sequence
  | none => 0

/-- Result record of `verifyChain` (chain.ts lines 86-90). -/
structure VerifyResult where
  valid : Bool
  brokenAt : Option Nat
  error : Option String
deriving DecidableEq

/-- Loop of chain.ts `verifyChain` (lines 115-140): walk consecutive
sorted entries; `i` is the index of `cur` in the sorted list. -/
def verifyFrom (prev : AuditEntry) : List AuditEntry → Nat → VerifyResult
  | [], _ => { valid := true, brokenAt := none, error := none }
  | cur :: rest, i =>
    match cur.chain, prev.chain with
    | some cc, some pc =>
      if cc.previousHash ≠ pc.hash then
        { valid := false, brokenAt := some i,
          error := some ("Chain broken: expected previousHash " ++ pc.hash
            ++ ", got " ++ cc.previousHash) }
      else if cc.sequence ≠ pc.sequence + 1 then
        { valid := false, brokenAt := some i,
          error := some ("Sequence gap: expected " ++ toString (pc.sequence + 1)
            ++ ", got " ++ toString cc.sequence) }
      else verifyFrom cur rest (i + 1)
    | _, _ =>
      { valid := false, brokenAt := some i, error := some "Missing chain data" }

/-- chain.ts `verifyChain` (lines 86-143): empty input is valid; sort by
`chain?.sequence ?? 0` ascending; the first sorted entry must carry chain
data and, when its sequence is 0, its previousHash must be the genesis
digest; then walk consecutive pairs. Note that no entry hash is ever
recomputed here: only the stored link fields are compared. -/
def verifyChain (CM : CryptoModel) (alg : HashAlgorithm)
    (entries : List AuditEntry) : VerifyResult :=
  match entries with
  | [] => { valid := true, brokenAt := none, error := none }
  | _ :: _ =>
    match List.insertionSort (fun a b => seqKey a ≤ seqKey b) entries with
    | [] => { valid := true, brokenAt := none, error := none }
    | first :: rest =>
      match first.chain with
      | none =>
        { valid := false, brokenAt := some 0, error := some "Missing chain data" }
      | some c0 =>
        if c0.sequence = 0 ∧ c0.previousHash ≠ computeGenesisHash CM alg then
          { valid := false, brokenAt := some 0, error := some "Invalid genesis hash" }
        else
          verifyFrom first rest 1

/-- logger.ts `log` (lines 82-95): normalize actor/resource shorthand
into full objects; the full object wins whenever it is present (`??`),
and the built object carries only the shorthand id/type/ip fields. -/
def normalizeEvent (ev : AuditEvent) : AuditEvent :=
  { ev with
    actor := some (ev.actor.getD
      { id := ev.actorId, type := ev.actorType, name := none, ip := ev.actorIp,
        userAgent := none, sessionId := none, metadata := none }),
    resource := some (ev.resource.getD
      { id := ev.resourceId, type := ev.resourceType, name := none,
        path := none, metadata := none }) }

/-- logger.ts `log` (lines 79-101): the entry as built before the chain
step, with the externally generated UUID and creation instant supplied as
arguments. -/
def mkEntry (id : String) (ts : Int) (svc : ServiceInfo) (ev : AuditEvent) :
    AuditEntry :=
  { id := id, timestamp := ts, event := normalizeEvent ev,
    service := some svc, chain := none, signature := none }

/-- Chain-enabled write loop of logger.ts `log` (lines 103-106): each
entry gets the chain values from `addEntry` and advances the running
state; inputs are the per-call `(id, timestamp, event)` triples. -/
def runLog (CM : CryptoModel) (alg : HashAlgorithm) (svc : ServiceInfo) :
    ChainState → List (String × Int × AuditEvent) → List AuditEntry
  | _, [] => []
  | st, (i, t, ev) :: rest =>
    let e := mkEntry i t svc ev
    let p := addEntry CM alg st e
    { e with chain := some p.1 } :: runLog CM alg svc p.2 rest

/-- The sequence of entries produced by successive `log` calls on one
logger whose chain starts fresh at genesis. -/
def chainedLog (CM : CryptoModel) (alg : HashAlgorithm) (svc : ServiceInfo)
    (inputs : List (String × Int × AuditEvent)) : List AuditEntry :=
  runLog CM alg svc (initChain CM alg) inputs

/-- Linkage between two chain-adjacent entries, as produced by the chain. -/
def Linked (a b : AuditEntry) : Prop :=
  ∃ ca cb, a.chain = some ca ∧ b.chain = some cb ∧
    cb.previousHash = ca.hash ∧ cb.sequence = ca.sequence + 1

/-- Time range of a query (types.ts `AuditQuery.timeRange`); the second
field is named `end` in the source, a Lean keyword. -/
structure TimeRange where
  start : Option Int
  «end» : Option Int
deriving DecidableEq

/-- Sort order of a query (types.ts `AuditQuery.sort`). -/
inductive SortOrder
  | asc
  | desc
deriving DecidableEq

/-- Query parameters (types.ts `AuditQuery`); all fields optional. -/
structure AuditQuery where
  timeRange : Option TimeRange
  eventTypes : Option (List EventType)
  actions : Option (List String)
  outcomes : Option (List Outcome)
  actorIds : Option (List String)
  resourceTypes : Option (List String)
  resourceIds : Option (List String)
  tags : Option (List String)
  search : Option String
  limit : Option Nat
  offset : Option Nat
  sort : Option SortOrder
deriving DecidableEq

/-- Query result (types.ts `AuditQueryResult`). -/
structure AuditQueryResult where
  entries : List AuditEntry
  total : Nat
  hasMore : Bool
deriving DecidableEq

/-- Character-list core of the substring test behind
`String.prototype.includes`. -/
def isPrefixCh : List Char → List Char → Bool
  | [], _ => true
  | _ :: _, [] => false
  | a :: as, b :: bs => a == b && isPrefixCh as bs

/-- Substring occurrence over character lists. -/
def hasSubstrCh (needle : List Char) : List Char → Bool
  | [] => isPrefixCh needle []
  | c :: t => isPrefixCh needle (c :: t) || hasSubstrCh needle t

/-- Models JavaScript `hay.includes(sub)` on strings. -/
def strIncludes (hay sub : String) : Bool :=
  hasSubstrCh sub.data hay.data

/-- Models `String.prototype.toLowerCase` as a character-wise lowering. -/
def lowerStr (s : String) : String :=
  String.mk (s.data.map Char.toLower)

/-- Truthiness-guarded membership used by the actor/resource id and type
filters (store module, `MemoryStore.query`): a shorthand or nested field
matches only when it is present, non-empty (JavaScript string
truthiness), and contained in the allowed list. -/
def optStrMatch (o : Option String) (allowed : List String) : Bool :=
  match o with
  | none => false
  | some s => !(s == "") && allowed.contains s

/-- Time-range start filter of `MemoryStore.query` (store module, lines
38-40): guarded by `query.timeRange?.start` (a `Date`, truthy whenever
present). -/
def filterTimeStart (q : AuditQuery) (l : List AuditEntry) : List AuditEntry :=
  match q.timeRange.bind (fun tr => tr.start) with
  | some s => l.filter (fun e => decide (s ≤ e.timestamp))
  | none => l

/-- Time-range end filter (store module, lines 41-43). -/
def filterTimeEnd (q : AuditQuery) (l : List AuditEntry) : List AuditEntry :=
  match q.timeRange.bind (fun tr => tr.«end») with
  | some t => l.filter (fun e => decide (e.timestamp ≤ t))
  | none => l

/-- Event-type filter (store module, lines 44-46): guarded by
`query.eventTypes?.length`. -/
def filterEventTypes (q : AuditQuery) (l : List AuditEntry) : List AuditEntry :=
  match q.eventTypes with
  | some ts => if ts.isEmpty then l else l.filter (fun e => ts.contains e.event.type)
  | none => l

/-- Action filter (store module, lines 47-49). -/
def filterActions (q : AuditQuery) (l : List AuditEntry) : List AuditEntry :=
  match q.actions with
  | some as => if as.isEmpty then l else l.filter (fun e => as.contains e.event.action)
  | none => l

/-- Outcome filter (store module, lines 50-52). -/
def filterOutcomes (q : AuditQuery) (l : List AuditEntry) : List AuditEntry :=
  match q.outcomes with
  | some os => if os.isEmpty then l else l.filter (fun e => os.contains e.event.outcome)
  | none => l

/-- Actor-id filter (store module, lines 53-59): matches the shorthand or
the nested field, each under string truthiness. -/
def filterActorIds (q : AuditQuery) (l : List AuditEntry) : List AuditEntry :=
  match q.actorIds with
  | some ids =>
    if ids.isEmpty then l else
      l.filter (fun e =>
        optStrMatch e.event.actorId ids
          || optStrMatch (e.event.actor.bind (fun a => a.id)) ids)
  | none => l

/-- Resource-type filter (store module, lines 60-66). -/
def filterResourceTypes (q : AuditQuery) (l : List AuditEntry) : List AuditEntry :=
  match q.resourceTypes with
  | some tys =>
    if tys.isEmpty then l else
      l.filter (fun e =>
        optStrMatch e.event.resourceType tys
          || optStrMatch (e.event.resource.bind (fun r => r.type)) tys)
  | none => l

/-- Resource-id filter (store module, lines 67-73). -/
def filterResourceIds (q : AuditQuery) (l : List AuditEntry) : List AuditEntry :=
  match q.resourceIds with
  | some ids =>
    if ids.isEmpty then l else
      l.filter (fun e =>
        optStrMatch e.event.resourceId ids
          || optStrMatch (e.event.resource.bind (fun r => r.id)) ids)
  | none => l

/-- Tag filter (store module, lines 74-76): `tags?.some(...)` is falsy
when the entry has no tags. -/
def filterTags (q : AuditQuery) (l : List AuditEntry) : List AuditEntry :=
  match q.tags with
  | some ts =>
    if ts.isEmpty then l else
      l.filter (fun e => (e.event.tags.getD []).any (fun t => ts.contains t))
  | none => l

/-- Free-text search filter (store module, lines 77-84): guarded by
string truthiness of `query.search`; case-insensitive substring match
against description or action. -/
def filterSearch (q : AuditQuery) (l : List AuditEntry) : List AuditEntry :=
  match q.search with
  | some s =>
    if s == "" then l else
      l.filter (fun e =>
        (match e.event.description with
         | some d => strIncludes (lowerStr d) (lowerStr s)
         | none => false)
        || strIncludes (lowerStr e.event.action) (lowerStr s))
  | none => l

/-- Filter pipeline of `MemoryStore.query` (store module, lines 35-84),
applied in source order. -/
def applyFilters (q : AuditQuery) (l : List AuditEntry) : List AuditEntry :=
  filterSearch q (filterTags q (filterResourceIds q (filterResourceTypes q
    (filterActorIds q (filterOutcomes q (filterActions q (filterEventTypes q
      (filterTimeEnd q (filterTimeStart q l)))))))))

/-- Sort step of `MemoryStore.query` (store module, lines 86-91): stable
sort by timestamp, ascending or descending by the comparator sign. -/
def sortEntries (ord : SortOrder) (l : List AuditEntry) : List AuditEntry :=
  match ord with
  | .asc => List.insertionSort (fun a b => a.timestamp ≤ b.timestamp) l
  | .desc => List.insertionSort (fun a b => b.timestamp ≤ a.timestamp) l

/-- State of a `MemoryStore` (store module, lines 17-23): the ordered
entry list and the `maxSize` bound (constructor default 10000). -/
structure MemoryStoreState where
  entries : List AuditEntry
  maxSize : Nat
deriving DecidableEq

/-- A fresh memory store with the given `maxSize`. -/
def emptyStore (maxSize : Nat) : MemoryStoreState :=
  { entries := [], maxSize := maxSize }

/-- Models `arr.slice(-m)`: JavaScript `slice(-0)` is `slice(0)`, the
whole array; for `m > 0` it keeps the last `m` elements. -/
def sliceLast (l : List AuditEntry) (m : Nat) : List AuditEntry :=
  if m = 0 then l else l.drop (l.length - m)

/-- store module `MemoryStore.write` (lines 25-32): push, then trim to
`slice(-maxSize)` when the length exceeds `maxSize`. -/
def memWrite (s : MemoryStoreState) (e : AuditEntry) : MemoryStoreState :=
  let l := s.entries ++ [e]
  if s.maxSize < l.length then { s with entries := sliceLast l s.maxSize }
  else { s with entries := l }

/-- Successive `MemoryStore.write` calls in write order. -/
def memWriteAll (s : MemoryStoreState) (ws : List AuditEntry) : MemoryStoreState :=
  ws.foldl memWrite s

/-- store module `MemoryStore.query` (lines 34-105): filter, sort
(default descending), count, then paginate with `slice(offset,
offset+limit)` (defaults offset 0, limit 100) and compute `hasMore`. -/
def queryStore (s : MemoryStoreState) (q : AuditQuery) : AuditQueryResult :=
  let results := applyFilters q s.entries
  let sorted := sortEntries (q.sort.getD SortOrder.desc) results
  let total := sorted.length
  let offset := q.offset.getD 0
  let limit := q.limit.getD 100
  let page := (sorted.drop offset).take limit
  { entries := page, total := total,
    hasMore := decide (offset + page.length < total) }

/-- store module `MemoryStore.close` (lines 107-109): discards all
entries. -/
def memClose (s : MemoryStoreState) : MemoryStoreState :=
  { s with entries := [] }

/-- Sink variants (types.ts `AuditSink`); the caller-supplied `custom`
handler is an opaque function reference, modelled as an identifier that
the external sink environment interprets. -/
inductive AuditSink
  | console
  | file (path : String) (rotate : Option Bool)
  | webhook (url : String) (headers : List (String × String))
  | custom (handler : Nat)
deriving DecidableEq

/-- Outcome of one settled promise, as collected by
`Promise.allSettled`. -/
inductive SettledResult
  | fulfilled
  | rejected (reason : String)
deriving DecidableEq

/-- Settling of a single sink delivery: a throw/reject becomes a
`rejected` record instead of propagating. -/
def settle (r : Except String Unit) : SettledResult :=
  match r with
  | .ok _ => .fulfilled
  | .error e => .rejected e

/-- External effects performed by `SinkWriter.writeToSink` (store module,
lines 231-256): printing, file append, HTTP POST, and the custom
callback. Each returns the outcome of that one delivery. -/
structure SinkEnv where
  consoleWrite : AuditEntry → Except String Unit
  fileAppend : String → AuditEntry → Except String Unit
  webhookPost : String → List (String × String) → AuditEntry → Except String Unit
  customRun : Nat → AuditEntry → Except String Unit

/-- store module `SinkWriter.writeToSink` (lines 231-256): dispatch on
the sink kind and perform its delivery effect. -/
def writeToSink (env : SinkEnv) (sink : AuditSink) (entry : AuditEntry) :
    Except String Unit :=
  match sink with
  | .console => env.consoleWrite entry
  | .file p _ => env.fileAppend p entry
  | .webhook u hs => env.webhookPost u hs entry
  | .custom h => env.customRun h entry

/-- Models `Promise.allSettled`: every promise's outcome is collected and
the aggregate itself never rejects. -/
def allSettled (ps : List (Except String Unit)) : List SettledResult :=
  ps.map settle

/-- store module `SinkWriter.write` (lines 226-229): map every configured
sink to its delivery attempt and await `Promise.allSettled`. -/
def sinkWriterWrite (env : SinkEnv) (sinks : List AuditSink)
    (entry : AuditEntry) : List SettledResult :=
  allSettled (sinks.map (fun s => writeToSink env s entry))

/-- Chain step of logger.ts `log` (lines 103-106): attach chain values
when chaining is enabled and advance the running state. -/
def logStep (CM : CryptoModel) (alg : HashAlgorithm) (id : String) (ts : Int)
    (svc : ServiceInfo) (ev : AuditEvent) (chainSt : Option ChainState) :
    AuditEntry × Option ChainState :=
  let e := mkEntry id ts svc ev
  match chainSt with
  | none => (e, none)
  | some st =>
    let p := addEntry CM alg st e
    ({ e with chain := some p.1 }, some p.2)

/-- logger.ts `log` (lines 78-115): build the entry, await the store
write (whose failure propagates), then await `Promise.allSettled` over
the sinks — which never rejects — and return the entry. -/
def logOnce (CM : CryptoModel) (alg : HashAlgorithm) (env : SinkEnv)
    (sinks : List AuditSink) (storeWrite : AuditEntry → Except String Unit)
    (id : String) (ts : Int) (svc : ServiceInfo) (ev : AuditEvent)
    (chainSt : Option ChainState) : Except String AuditEntry :=
  let p := logStep CM alg id ts svc ev chainSt
  match storeWrite p.1 with
  | .error e => .error e
  | .ok _ =>
    let _ := sinkWriterWrite env sinks p.1
    .ok p.1

/-- Store selection config (config.ts `StoreConfig`). -/
structure StoreConfig where
  type : String
  filePath : Option String
  maxSize : Option Nat
  bufferSize : Option Nat
  flushInterval : Option Nat
deriving DecidableEq

/-- Full audit configuration (config.ts `AuditConfig`). -/
structure AuditConfig where
  enableStructured : Bool
  hashChain : Bool
  hashAlgorithm : HashAlgorithm
  serviceName : String
  serviceVersion : String
  environment : String
  retentionDays : Nat
  enableSignatures : Bool
  signingKey : Option String
  sinks : List AuditSink
  includeStackTraces : Bool
  autoDelete : Bool
  bufferSize : Nat
  flushInterval : Nat
  store : Option StoreConfig
deriving DecidableEq

/-- Caller-supplied partial configuration (`Partial<AuditConfig>`): every
field optional. -/
structure PartialAuditConfig where
  enableStructured : Option Bool
  hashChain : Option Bool
  hashAlgorithm : Option HashAlgorithm
  serviceName : Option String
  serviceVersion : Option String
  environment : Option String
  retentionDays : Option Nat
  enableSignatures : Option Bool
  signingKey : Option String
  sinks : Option (List AuditSink)
  includeStackTraces : Option Bool
  autoDelete : Option Bool
  bufferSize : Option Nat
  flushInterval : Option Nat
  store : Option StoreConfig
deriving DecidableEq

/-- The partial config that supplies no field at all. -/
def emptyPartial : PartialAuditConfig :=
  { enableStructured := none, hashChain := none, hashAlgorithm := none,
    serviceName := none, serviceVersion := none, environment := none,
    retentionDays := none, enableSignatures := none, signingKey := none,
    sinks := none, includeStackTraces := none, autoDelete := none,
    bufferSize := none, flushInterval := none, store := none }

/-- Effect of `mergeAuditConfig({...current, ...partial})` (logger.ts
line 202, config.ts lines mergeAuditConfig): since `current` is a total
record, the merge keeps each current field unless the partial supplies
it. -/
def applyPartial (c : AuditConfig) (p : PartialAuditConfig) : AuditConfig :=
  { enableStructured := p.enableStructured.getD c.enableStructured,
    hashChain := p.hashChain.getD c.hashChain,
    hashAlgorithm := p.hashAlgorithm.getD c.hashAlgorithm,
    serviceName := p.serviceName.getD c.serviceName,
    serviceVersion := p.serviceVersion.getD c.serviceVersion,
    environment := p.environment.getD c.environment,
    retentionDays := p.retentionDays.getD c.retentionDays,
    enableSignatures := p.enableSignatures.getD c.enableSignatures,
    signingKey := (match p.signingKey with
      | some s => some s
      | none => c.signingKey),
    sinks := p.sinks.getD c.sinks,
    includeStackTraces := p.includeStackTraces.getD c.includeStackTraces,
    autoDelete := p.autoDelete.getD c.autoDelete,
    bufferSize := p.bufferSize.getD c.bufferSize,
    flushInterval := p.flushInterval.getD c.flushInterval,
    store := (match p.store with
      | some s => some s
      | none => c.store) }

/-- The logger's mutable components relevant to `setConfig` (logger.ts
lines 21-24): current config, the chain instance with its running state
(`none` when chaining is off), and the sink list held by the current
`SinkWriter`. -/
structure LoggerState where
  config : AuditConfig
  chain : Option ChainState
  sinks : List AuditSink
deriving DecidableEq

/-- logger.ts `setConfig` (lines 201-212): re-merge the config; when the
partial supplies `hashChain` (defined, whatever its value), replace the
chain with a fresh one (or drop it); when the partial supplies a (truthy)
`sinks` array, replace the sink writer. -/
def setConfigModel (CM : CryptoModel) (st : LoggerState)
    (p : PartialAuditConfig) : LoggerState :=
  let cfg := applyPartial st.config p
  { config := cfg,
    chain :=
      match p.hashChain with
      | none => st.chain
      | some b => if b then some (initChain CM cfg.hashAlgorithm) else none,
    sinks :=
      match p.sinks with
      | none => st.sinks
      | some s => s }

/-- Concrete executable crypto instance used for witnesses and
counterexamples; any `CryptoModel` works for the general theorems. -/
def toyCrypto : CryptoModel :=
  { digest := fun alg s =>
      (match alg with
       | .sha256 => "h256("
       | .sha512 => "h512(") ++ s ++ ")",
    stringifyData := fun h =>
      h.id ++ "|" ++ toString h.timestamp ++ "|" ++ h.event.action ++ "|"
        ++ h.previousHash }

/-- Concrete service snapshot for witnesses. -/
def toySvc : ServiceInfo :=
  { name := "svc", version := "1.0.0", environment := "test" }

/-- Concrete base event for witnesses. -/
def evBase : AuditEvent :=
  { type := .auth, action := "login", outcome := .success,
    description := none, actor := none, actorId := some "u1",
    actorType := some "user", actorIp := none, resource := none,
    resourceId := some "r1", resourceType := some "doc", trace := none,
    requestId := none, data := none, tags := none, durationMs := none,
    error := none }

/-- Concrete stored entry for store-level witnesses. -/
def entryBase : AuditEntry :=
  { id := "e1", timestamp := 10, event := evBase, service := some toySvc,
    chain := none, signature := none }

/-- Concrete chained entry for the verifyEntry witness. -/
def entryChained : AuditEntry :=
  { entryBase with chain := some { hash := "h0", previousHash := "p0", sequence := 0 } }

/-- The same entry with different service metadata and signature. -/
def entryChainedAlt : AuditEntry :=
  { entryChained with service := none, signature := some "sig" }

/-- Replace the first entry's `event.action` without recomputing its
hash: the canonical content mutation of claim C1. -/
def tamperFirstAction (l : List AuditEntry) (a : String) : List AuditEntry :=
  match l with
  | [] => []
  | e :: rest => { e with event := { e.event with action := a } } :: rest

/-- Concrete input triples used by witnesses. -/
def toyIns : List (String × Int × AuditEvent) :=
  [("id0", 0, evBase), ("id1", 5, { evBase with action := "read" })]

theorem runLog_head_spec (CM : CryptoModel) (alg : HashAlgorithm)
    (svc : ServiceInfo) (st : ChainState)
    (inputs : List (String × Int × AuditEvent)) (e : AuditEntry)
    (h : (runLog CM alg svc st inputs).head? = some e) :
    ∃ c, e.chain = some c ∧ c.previousHash = st.previousHash ∧
      c.sequence = st.sequence := by
  cases inputs with
  | nil => simp [runLog] at h
  | cons x rest =>
    obtain ⟨i, t, ev⟩ := x
    simp only [runLog, List.head?_cons, Option.some.injEq] at h
    exact ⟨(addEntry CM alg st (mkEntry i t svc ev)).1, by rw [← h], rfl, rfl⟩

theorem runLog_chain (CM : CryptoModel) (alg : HashAlgorithm)
    (svc : ServiceInfo) (inputs : List (String × Int × AuditEvent)) :
    ∀ st, List.Chain' Linked (runLog CM alg svc st inputs) := by
  induction inputs with
  | nil => intro st; simp [runLog]
  | cons x rest ih =>
    intro st
    obtain ⟨i, t, ev⟩ := x
    rw [runLog]
    refine List.chain'_cons'.mpr ⟨?_, ih _⟩
    intro b hb
    obtain ⟨c, hc, hprev, hseq⟩ := runLog_head_spec CM alg svc _ rest b hb
    exact ⟨(addEntry CM alg st (mkEntry i t svc ev)).1, c, rfl, hc,
      by rw [hprev]; rfl, by rw [hseq]; rfl⟩

theorem runLog_get_chain (CM : CryptoModel) (alg : HashAlgorithm)
    (svc : ServiceInfo) (inputs : List (String × Int × AuditEvent)) :
    ∀ (st : ChainState) (i : Nat) (hi : i < (runLog CM alg svc st inputs).length),
      ∃ c, ((runLog CM alg svc st inputs).get ⟨i, hi⟩).chain = some c ∧
        c.sequence = st.sequence + i := by
  induction inputs with
  | nil => intro st i hi; simp [runLog] at hi
  | cons x rest ih =>
    intro st i hi
    obtain ⟨id0, t, ev⟩ := x
    cases i with
    | zero =>
      refine ⟨(addEntry CM alg st (mkEntry id0 t svc ev)).1, rfl, ?_⟩
      show st.sequence = st.sequence + ((0 : Nat) : Int)
      simp
    | succ n =>
      simp only [runLog] at hi ⊢
      obtain ⟨c, hc, hs⟩ := ih _ n (Nat.lt_of_succ_lt_succ (by simpa using hi))
      refine ⟨c, by simpa using hc, ?_⟩
      rw [hs]
      show (addEntry CM alg st (mkEntry id0 t svc ev)).2.sequence + n = st.sequence + (n + 1)
      show st.sequence + 1 + (n : Int) = st.sequence + ((n : Nat) + 1 : Nat)
      push_cast
      ring

/-- C2: entries produced by successive addEntry calls on one fresh chain
instance link previousHash to the predecessor's hash, increment sequence
by one, and start from the genesis digest `digest(algorithm, "GENESIS")`
at sequence 0. -/
theorem chain_contiguity (CM : CryptoModel) (alg : HashAlgorithm)
    (svc : ServiceInfo) (inputs : List (String × Int × AuditEvent)) :
    (∀ e, (chainedLog CM alg svc inputs).head? = some e →
      ∃ c, e.chain = some c ∧ c.previousHash = CM.digest alg "GENESIS" ∧
        c.sequence = 0)
    ∧ ∀ i (hi : i + 1 < (chainedLog CM alg svc inputs).length),
        ∃ cp cn,
          ((chainedLog CM alg svc inputs).get ⟨i, Nat.lt_of_succ_lt hi⟩).chain
              = some cp ∧
          ((chainedLog CM alg svc inputs).get ⟨i + 1, hi⟩).chain = some cn ∧
          cn.previousHash = cp.hash ∧ cn.sequence = cp.sequence + 1 := by
  constructor
  · intro e he
    exact runLog_head_spec CM alg svc (initChain CM alg) inputs e he
  · intro i hi
    have hch := runLog_chain CM alg svc inputs (initChain CM alg)
    have hlen : (chainedLog CM alg svc inputs).length
        = (runLog CM alg svc (initChain CM alg) inputs).length := rfl
    have := List.chain'_iff_get.mp hch i (by omega)
    obtain ⟨cp, cn, hp, hn, h1, h2⟩ := this
    exact ⟨cp, cn, hp, hn, h1, h2⟩

theorem chain_contiguity_witness :
    (∃ c, ((chainedLog toyCrypto .sha256 toySvc toyIns).headD entryBase).chain
        = some c ∧ c.previousHash = toyCrypto.digest .sha256 "GENESIS" ∧
        c.sequence = 0)
    ∧ ∃ cp cn,
        ((chainedLog toyCrypto .sha256 toySvc toyIns).get ⟨0, by decide⟩).chain
            = some cp ∧
        ((chainedLog toyCrypto .sha256 toySvc toyIns).get ⟨1, by decide⟩).chain
            = some cn ∧
        cn.previousHash = cp.hash ∧ cn.sequence = cp.sequence + 1 :=
  ⟨(chain_contiguity toyCrypto .sha256 toySvc toyIns).1 _ rfl,
   (chain_contiguity toyCrypto .sha256 toySvc toyIns).2 0 (by decide)⟩

/-- C9: verifyEntry is a function of the entry's id, timestamp, event and
chain fields together with the supplied expected previous hash; two
entries differing only in service metadata or signature verify
identically, because the recomputed digest covers only
`{id, timestamp, event, previousHash}`. -/
theorem verifyEntry_ignores_service_signature (CM : CryptoModel)
    (alg : HashAlgorithm) (e₁ e₂ : AuditEntry) (prev : String)
    (hid : e₁.id = e₂.id) (hts : e₁.timestamp = e₂.timestamp)
    (hev : e₁.event = e₂.event) (hch : e₁.chain = e₂.chain) :
    verifyEntry CM alg e₁ prev = verifyEntry CM alg e₂ prev := by
  unfold verifyEntry computeHash
  rw [hid, hts, hev, hch]

theorem verifyEntry_ignores_service_signature_witness :
    verifyEntry toyCrypto .sha256 entryChained "p0"
      = verifyEntry toyCrypto .sha256 entryChainedAlt "p0" :=
  verifyEntry_ignores_service_signature toyCrypto .sha256 _ _ "p0"
    rfl rfl rfl rfl

/-- C1: the claim is refuted by the code: mutating the first entry's
event content (its `action`) without recomputing its hash leaves the
stored chain values untouched, makes the stored hash fail recomputation
(`verifyEntry` returns false), and yet `verifyChain` still reports
`valid = true` with no `brokenAt`, because `verifyChain` never recomputes
any entry hash — it only compares the stored link fields. -/
theorem verifyChain_misses_event_tampering :
    verifyChain toyCrypto .sha256
        (tamperFirstAction (chainedLog toyCrypto .sha256 toySvc toyIns)
          "tampered")
      = { valid := true, brokenAt := none, error := none }
    ∧ ((tamperFirstAction (chainedLog toyCrypto .sha256 toySvc toyIns)
          "tampered").headD entryBase).event.action
        ≠ ((chainedLog toyCrypto .sha256 toySvc toyIns).headD
            entryBase).event.action
    ∧ ((tamperFirstAction (chainedLog toyCrypto .sha256 toySvc toyIns)
          "tampered").headD entryBase).chain
        = ((chainedLog toyCrypto .sha256 toySvc toyIns).headD entryBase).chain
    ∧ verifyEntry toyCrypto .sha256
        ((tamperFirstAction (chainedLog toyCrypto .sha256 toySvc toyIns)
          "tampered").headD entryBase)
        (computeGenesisHash toyCrypto .sha256) = false := by
  refine ⟨by decide, by decide, by decide, by decide⟩

theorem runLog_pairwise_lt (CM : CryptoModel) (alg : HashAlgorithm)
    (svc : ServiceInfo) (inputs : List (String × Int × AuditEvent))
    (st : ChainState) :
    List.Pairwise (fun a b => seqKey a < seqKey b)
      (runLog CM alg svc st inputs) := by
  rw [List.pairwise_iff_get]
  intro i j hij
  obtain ⟨ci, hci, hsi⟩ := runLog_get_chain CM alg svc inputs st i i.isLt
  obtain ⟨cj, hcj, hsj⟩ := runLog_get_chain CM alg svc inputs st j j.isLt
  have hij' : (i : Nat) < (j : Nat) := hij
  simp only [seqKey, hci, hcj, hsi, hsj]
  omega

theorem verifyFrom_valid : ∀ (rest : List AuditEntry) (prev : AuditEntry)
    (i : Nat), List.Chain' Linked (prev :: rest) →
    verifyFrom prev rest i = { valid := true, brokenAt := none, error := none } := by
  intro rest
  induction rest with
  | nil => intro prev i _; rfl
  | cons cur rest ih =>
    intro prev i h
    obtain ⟨hl, ht⟩ := List.chain'_cons.mp h
    obtain ⟨ca, cb, hpc, hcc, hph, hsq⟩ := hl
    have hrec := ih cur (i + 1) ht
    simp only [verifyFrom, hcc, hpc]
    rw [if_neg (by simp [hph]), if_neg (by simp [hsq])]
    exact hrec

/-- C3: verifyChain on any permutation of an untampered chain-produced
sequence returns valid with no brokenAt and no error: the input order is
not trusted because verifyChain first sorts by `chain.sequence`
ascending, and the produced sequences 0,1,2,... determine the sorted
order uniquely. -/
theorem verifyChain_perm_valid (CM : CryptoModel) (alg : HashAlgorithm)
    (svc : ServiceInfo) (inputs : List (String × Int × AuditEvent))
    (l : List AuditEntry) (hperm : l.Perm (chainedLog CM alg svc inputs)) :
    verifyChain CM alg l = { valid := true, brokenAt := none, error := none } := by
  cases l with
  | nil => rfl
  | cons x xs =>
    have hL : (chainedLog CM alg svc inputs).length = xs.length + 1 := by
      have := hperm.length_eq
      simpa using this.symm
    obtain ⟨e0, L', hLeq⟩ : ∃ e0 L', chainedLog CM alg svc inputs = e0 :: L' := by
      cases hC : chainedLog CM alg svc inputs with
      | nil => rw [hC] at hL; simp at hL
      | cons a b => exact ⟨a, b, rfl⟩
    haveI hTot : IsTotal AuditEntry (fun a b => seqKey a ≤ seqKey b) :=
      ⟨fun a b => Int.le_total _ _⟩
    haveI hTr : IsTrans AuditEntry (fun a b => seqKey a ≤ seqKey b) :=
      ⟨fun _ _ _ hab hbc => le_trans hab hbc⟩
    haveI hAnti : IsAntisymm AuditEntry (fun a b => seqKey a < seqKey b) :=
      ⟨fun _ _ h1 h2 => absurd h2 (lt_asymm h1)⟩
    have hsp : (List.insertionSort (fun a b => seqKey a ≤ seqKey b)
        (x :: xs)).Perm (chainedLog CM alg svc inputs) :=
      (List.perm_insertionSort _ _).trans hperm
    have hsle : List.Sorted (fun a b => seqKey a ≤ seqKey b)
        (List.insertionSort (fun a b => seqKey a ≤ seqKey b) (x :: xs)) :=
      List.sorted_insertionSort _ _
    have hLlt : List.Pairwise (fun a b => seqKey a < seqKey b)
        (chainedLog CM alg svc inputs) :=
      runLog_pairwise_lt CM alg svc inputs (initChain CM alg)
    have hLne : List.Pairwise (fun a b => seqKey a ≠ seqKey b)
        (chainedLog CM alg svc inputs) :=
      hLlt.imp (fun h => ne_of_lt h)
    have hsne : List.Pairwise (fun a b => seqKey a ≠ seqKey b)
        (List.insertionSort (fun a b => seqKey a ≤ seqKey b) (x :: xs)) :=
      (List.Perm.pairwise_iff (fun h => h.symm) hsp).mpr hLne
    have hslt : List.Sorted (fun a b => seqKey a < seqKey b)
        (List.insertionSort (fun a b => seqKey a ≤ seqKey b) (x :: xs)) :=
      (hsle.and hsne).imp (fun h => lt_of_le_of_ne h.1 h.2)
    have heq : List.insertionSort (fun a b => seqKey a ≤ seqKey b) (x :: xs)
        = chainedLog CM alg svc inputs :=
      List.eq_of_perm_of_sorted hsp hslt hLlt
    have hhead : (chainedLog CM alg svc inputs).head? = some e0 := by
      rw [hLeq]; rfl
    obtain ⟨c0, hc0, hprev0, hseq0⟩ :=
      runLog_head_spec CM alg svc (initChain CM alg) inputs e0 hhead
    have hch : List.Chain' Linked (e0 :: L') := by
      rw [← hLeq]
      exact runLog_chain CM alg svc inputs (initChain CM alg)
    simp only [verifyChain]
    rw [heq, hLeq]
    simp only [hc0]
    rw [if_neg ?side]
    case side =>
      rintro ⟨_, hne⟩
      exact hne hprev0
    exact verifyFrom_valid L' e0 1 hch

theorem verifyChain_perm_valid_witness :
    ((chainedLog toyCrypto .sha256 toySvc toyIns).reverse).Perm
        (chainedLog toyCrypto .sha256 toySvc toyIns)
    ∧ verifyChain toyCrypto .sha256
        ((chainedLog toyCrypto .sha256 toySvc toyIns).reverse)
      = { valid := true, brokenAt := none, error := none } :=
  ⟨List.reverse_perm _,
   verifyChain_perm_valid toyCrypto .sha256 toySvc toyIns _
     (List.reverse_perm _)⟩

theorem memWrite_maxSize (s : MemoryStoreState) (e : AuditEntry) :
    (memWrite s e).maxSize = s.maxSize := by
  simp only [memWrite]
  split <;> rfl

theorem memWrite_entries (s : MemoryStoreState) (e : AuditEntry)
    (hN : 1 ≤ s.maxSize) :
    (memWrite s e).entries
      = (s.entries ++ [e]).drop ((s.entries.length + 1) - s.maxSize) := by
  have hlen1 : (s.entries ++ [e]).length = s.entries.length + 1 := by simp
  unfold memWrite
  by_cases hc : s.maxSize < (s.entries ++ [e]).length
  · rw [if_pos hc]
    show sliceLast (s.entries ++ [e]) s.maxSize = _
    unfold sliceLast
    rw [if_neg (by omega), hlen1]
  · rw [if_neg hc]
    show s.entries ++ [e] = _
    rw [show s.entries.length + 1 - s.maxSize = 0 by omega, List.drop_zero]

theorem memWriteAll_drop (N : Nat) (hN : 1 ≤ N) :
    ∀ (ws : List AuditEntry) (s : MemoryStoreState), s.maxSize = N →
      s.entries.length ≤ N →
      (memWriteAll s ws).entries
        = (s.entries ++ ws).drop ((s.entries.length + ws.length) - N) := by
  intro ws
  induction ws with
  | nil =>
    intro s hm hl
    show s.entries = _
    rw [List.append_nil]
    rw [show s.entries.length + ([] : List AuditEntry).length - N = 0 from by
      simp only [List.length_nil]; omega]
    rw [List.drop_zero]
  | cons w ws ih =>
    intro s hm hl
    subst hm
    have hN' : 1 ≤ s.maxSize := hN
    have hw := memWrite_entries s w hN'
    have hm1 : (memWrite s w).maxSize = s.maxSize := memWrite_maxSize s w
    have hlen1 : (memWrite s w).entries.length ≤ s.maxSize := by
      rw [hw]
      simp only [List.length_drop, List.length_append, List.length_singleton]
      omega
    have hstep : memWriteAll s (w :: ws) = memWriteAll (memWrite s w) ws := rfl
    rw [hstep, ih (memWrite s w) hm1 hlen1, hw]
    have hd : s.entries.length + 1 - s.maxSize ≤ (s.entries ++ [w]).length := by
      simp only [List.length_append, List.length_singleton]
      omega
    rw [← List.drop_append_of_le_length hd, List.drop_drop]
    have harr : (s.entries ++ [w]) ++ ws = s.entries ++ w :: ws := by simp
    rw [harr]
    congr 1
    simp only [List.length_drop, List.length_append, List.length_singleton,
      List.length_cons, List.length_nil]
    omega

/-- C6 counterexample: with `maxSize = 0` the trim is `slice(-0)`, which
in JavaScript is `slice(0)` — the whole array — so the store retains the
written entry and holds more than `maxSize` entries, contradicting the
claim at `N = 0`, `k = 1`. -/
theorem memStore_eviction_counterexample :
    (memWriteAll (emptyStore 0) [entryBase]).entries = [entryBase]
    ∧ ¬ (memWriteAll (emptyStore 0) [entryBase]).entries.length ≤ 0 := by
  refine ⟨by decide, by decide⟩

/-- C6 amended: for every `maxSize = N` with `N ≥ 1`, after writing any
sequence of entries the store holds exactly the most recent `N` of them
(`drop (length - N)`), so in particular after `N + k` writes the `k`
oldest entries are evicted, and the store never holds more than `N`
entries. -/
theorem memStore_eviction (N : Nat) (hN : 1 ≤ N) (ws : List AuditEntry) :
    (memWriteAll (emptyStore N) ws).entries = ws.drop (ws.length - N)
    ∧ (memWriteAll (emptyStore N) ws).entries.length ≤ N := by
  have h := memWriteAll_drop N hN ws (emptyStore N) rfl (by simp [emptyStore])
  have h' : (memWriteAll (emptyStore N) ws).entries = ws.drop (ws.length - N) := by
    simpa [emptyStore] using h
  refine ⟨h', ?_⟩
  rw [h']
  simp only [List.length_drop]
  omega

theorem memStore_eviction_witness :
    (memWriteAll (emptyStore 1) [entryBase, entryChained]).entries
      = [entryBase, entryChained].drop ([entryBase, entryChained].length - 1)
    ∧ (memWriteAll (emptyStore 1) [entryBase, entryChained]).entries.length ≤ 1 :=
  memStore_eviction 1 (by decide) [entryBase, entryChained]

theorem sortEntries_length (ord : SortOrder) (l : List AuditEntry) :
    (sortEntries ord l).length = l.length := by
  cases ord <;> exact (List.perm_insertionSort _ _).length_eq

/-- C5: the returned page is the `[offset, offset+limit)` slice of the
full filtered-and-sorted result (default sort descending by timestamp,
default limit 100, default offset 0), `total` is the filtered count
before pagination, and `hasMore` holds exactly when
`offset + limit < total`. -/
theorem query_pagination (s : MemoryStoreState) (q : AuditQuery) :
    (queryStore s q).entries
      = ((sortEntries (q.sort.getD SortOrder.desc) (applyFilters q s.entries)).drop
          (q.offset.getD 0)).take (q.limit.getD 100)
    ∧ (queryStore s q).total = (applyFilters q s.entries).length
    ∧ ((queryStore s q).hasMore = true ↔
        q.offset.getD 0 + q.limit.getD 100
          < (sortEntries (q.sort.getD SortOrder.desc)
              (applyFilters q s.entries)).length) := by
  refine ⟨rfl, sortEntries_length _ _, ?_⟩
  show decide (q.offset.getD 0
      + (((sortEntries (q.sort.getD SortOrder.desc)
            (applyFilters q s.entries)).drop (q.offset.getD 0)).take
          (q.limit.getD 100)).length
      < (sortEntries (q.sort.getD SortOrder.desc)
          (applyFilters q s.entries)).length) = true ↔ _
  simp only [decide_eq_true_eq, List.length_take, List.length_drop]
  omega

theorem filterTimeStart_nil (q : AuditQuery) : filterTimeStart q [] = [] := by
  unfold filterTimeStart
  repeat' split
  all_goals rfl

theorem filterTimeEnd_nil (q : AuditQuery) : filterTimeEnd q [] = [] := by
  unfold filterTimeEnd
  repeat' split
  all_goals rfl

theorem filterEventTypes_nil (q : AuditQuery) : filterEventTypes q [] = [] := by
  unfold filterEventTypes
  repeat' split
  all_goals rfl

theorem filterActions_nil (q : AuditQuery) : filterActions q [] = [] := by
  unfold filterActions
  repeat' split
  all_goals rfl

theorem filterOutcomes_nil (q : AuditQuery) : filterOutcomes q [] = [] := by
  unfold filterOutcomes
  repeat' split
  all_goals rfl

theorem filterActorIds_nil (q : AuditQuery) : filterActorIds q [] = [] := by
  unfold filterActorIds
  repeat' split
  all_goals rfl

theorem filterResourceTypes_nil (q : AuditQuery) : filterResourceTypes q [] = [] := by
  unfold filterResourceTypes
  repeat' split
  all_goals rfl

theorem filterResourceIds_nil (q : AuditQuery) : filterResourceIds q [] = [] := by
  unfold filterResourceIds
  repeat' split
  all_goals rfl

theorem filterTags_nil (q : AuditQuery) : filterTags q [] = [] := by
  unfold filterTags
  repeat' split
  all_goals rfl

theorem filterSearch_nil (q : AuditQuery) : filterSearch q [] = [] := by
  unfold filterSearch
  repeat' split
  all_goals rfl

theorem applyFilters_nil (q : AuditQuery) : applyFilters q [] = [] := by
  unfold applyFilters
  rw [filterTimeStart_nil, filterTimeEnd_nil, filterEventTypes_nil,
    filterActions_nil, filterOutcomes_nil, filterActorIds_nil,
    filterResourceTypes_nil, filterResourceIds_nil, filterTags_nil,
    filterSearch_nil]

theorem sortEntries_nil (ord : SortOrder) : sortEntries ord [] = [] := by
  cases ord <;> rfl

/-- C10: closing a memory store discards every stored entry — after
close, any query returns no entries and a total of 0. -/
theorem memClose_discards (s : MemoryStoreState) (q : AuditQuery) :
    (queryStore (memClose s) q).entries = []
    ∧ (queryStore (memClose s) q).total = 0 := by
  unfold queryStore memClose
  simp [applyFilters_nil, sortEntries_nil]

/-- Sink environment in which every delivery succeeds. -/
def envOk : SinkEnv :=
  { consoleWrite := fun _ => .ok (), fileAppend := fun _ _ => .ok (),
    webhookPost := fun _ _ _ => .ok (), customRun := fun _ _ => .ok () }

/-- Sink environment in which every delivery throws/rejects. -/
def envBad : SinkEnv :=
  { consoleWrite := fun _ => .error "console down",
    fileAppend := fun _ _ => .error "disk full",
    webhookPost := fun _ _ _ => .error "network error",
    customRun := fun _ _ => .error "handler threw" }

/-- C4: SinkWriter.write attempts delivery to every configured sink —
the settled-result list has one slot per sink, the i-th outcome is
exactly that sink's own delivery outcome (so no sink's failure prevents
or alters any other sink's attempt), and the result `log()` returns to
its caller is entirely independent of the sink outcomes, so sink
failures never propagate out of `log()`. -/
theorem sink_isolation (env env' : SinkEnv) (sinks : List AuditSink)
    (entry : AuditEntry) :
    (sinkWriterWrite env sinks entry).length = sinks.length
    ∧ (∀ (i : Nat) (sink : AuditSink), sinks[i]? = some sink →
        (sinkWriterWrite env sinks entry)[i]?
          = some (settle (writeToSink env sink entry)))
    ∧ (∀ (CM : CryptoModel) (alg : HashAlgorithm)
        (storeWrite : AuditEntry → Except String Unit) (id : String)
        (ts : Int) (svc : ServiceInfo) (ev : AuditEvent)
        (chainSt : Option ChainState),
        logOnce CM alg env sinks storeWrite id ts svc ev chainSt
          = logOnce CM alg env' sinks storeWrite id ts svc ev chainSt) := by
  refine ⟨by simp [sinkWriterWrite, allSettled], ?_, ?_⟩
  · intro i sink hs
    simp [sinkWriterWrite, allSettled, List.getElem?_map, hs]
  · intro CM alg storeW id ts svc ev chSt
    rfl

theorem sink_isolation_witness :
    (sinkWriterWrite envBad [AuditSink.console, AuditSink.webhook "https://w" []]
        entryBase)[0]?
      = some (settle (writeToSink envBad AuditSink.console entryBase))
    ∧ logOnce toyCrypto .sha256 envBad
        [AuditSink.console, AuditSink.webhook "https://w" []]
        (fun _ => .ok ()) "id0" 0 toySvc evBase none
      = logOnce toyCrypto .sha256 envOk
        [AuditSink.console, AuditSink.webhook "https://w" []]
        (fun _ => .ok ()) "id0" 0 toySvc evBase none :=
  ⟨(sink_isolation envBad envOk
      [AuditSink.console, AuditSink.webhook "https://w" []] entryBase).2.1
      0 AuditSink.console rfl,
   (sink_isolation envBad envOk
      [AuditSink.console, AuditSink.webhook "https://w" []] entryBase).2.2
      toyCrypto .sha256 (fun _ => .ok ()) "id0" 0 toySvc evBase none⟩

/-- Concrete config with chaining enabled, used by the setConfig
counterexample. -/
def cfgChainOn : AuditConfig :=
  { enableStructured := true, hashChain := true, hashAlgorithm := .sha256,
    serviceName := "svc", serviceVersion := "1.0.0", environment := "test",
    retentionDays := 365, enableSignatures := false, signingKey := none,
    sinks := [.console], includeStackTraces := true, autoDelete := false,
    bufferSize := 100, flushInterval := 1000, store := none }

/-- A logger mid-stream: chaining on, running chain state advanced to
sequence 2. -/
def stRunning : LoggerState :=
  { config := cfgChainOn,
    chain := some { previousHash := "runhash", sequence := 2 },
    sinks := [.console] }

/-- A partial config that re-supplies `hashChain: true` — the same value
the logger already has. -/
def pChainTrue : PartialAuditConfig :=
  { emptyPartial with hashChain := some true }

/-- C7 counterexample: passing `hashChain: true` to setConfig when the
flag is already true leaves the flag's value unchanged, yet the chain
instance is replaced by a fresh genesis chain, discarding the running
`(previousHash, sequence)` state — refuting "replaced exactly when the
chaining flag changes value". -/
theorem setConfig_counterexample :
    (applyPartial stRunning.config pChainTrue).hashChain
        = stRunning.config.hashChain
    ∧ (setConfigModel toyCrypto stRunning pChainTrue).chain ≠ stRunning.chain
    ∧ (setConfigModel toyCrypto stRunning pChainTrue).chain
        = some (initChain toyCrypto .sha256) := by
  refine ⟨by decide, by decide, by decide⟩

/-- C7 amended: setConfig replaces the chain instance exactly when the
partial config explicitly supplies the `hashChain` field — regardless of
whether its value changes — resetting to a fresh genesis chain for
`true` and removing the chain for `false`; when `hashChain` is not
supplied the existing chain instance and its running state are
preserved; and the sink writer is replaced exactly when `sinks` is
supplied. -/
theorem setConfig_replacement (CM : CryptoModel) (st : LoggerState)
    (p : PartialAuditConfig) :
    (p.hashChain = none → (setConfigModel CM st p).chain = st.chain)
    ∧ (p.hashChain = some true →
        (setConfigModel CM st p).chain
          = some (initChain CM (applyPartial st.config p).hashAlgorithm))
    ∧ (p.hashChain = some false → (setConfigModel CM st p).chain = none)
    ∧ (p.sinks = none → (setConfigModel CM st p).sinks = st.sinks)
    ∧ (∀ ss, p.sinks = some ss → (setConfigModel CM st p).sinks = ss)
    ∧ (setConfigModel CM st p).config = applyPartial st.config p := by
  refine ⟨?_, ?_, ?_, ?_, ?_, rfl⟩
  · intro h
    simp [setConfigModel, h]
  · intro h
    simp [setConfigModel, h]
  · intro h
    simp [setConfigModel, h]
  · intro h
    simp [setConfigModel, h]
  · intro ss h
    simp [setConfigModel, h]

theorem setConfig_replacement_witness :
    (setConfigModel toyCrypto stRunning emptyPartial).chain = stRunning.chain
    ∧ (setConfigModel toyCrypto stRunning pChainTrue).chain
        = some (initChain toyCrypto
            (applyPartial stRunning.config pChainTrue).hashAlgorithm) :=
  ⟨(setConfig_replacement toyCrypto stRunning emptyPartial).1 rfl,
   (setConfig_replacement toyCrypto stRunning pChainTrue).2.1 rfl⟩

/-- C8: log() populates the persisted entry's `event.actor` and
`event.resource` from the shorthand fields only when the corresponding
full object is absent; a supplied full object is used unchanged even if
shorthand fields are also present. -/
theorem log_normalization (id : String) (ts : Int) (svc : ServiceInfo)
    (ev : AuditEvent) :
    (∀ a, ev.actor = some a → (mkEntry id ts svc ev).event.actor = some a)
    ∧ (ev.actor = none → (mkEntry id ts svc ev).event.actor
        = some { id := ev.actorId, type := ev.actorType, name := none,
                 ip := ev.actorIp, userAgent := none, sessionId := none,
                 metadata := none })
    ∧ (∀ r, ev.resource = some r →
        (mkEntry id ts svc ev).event.resource = some r)
    ∧ (ev.resource = none → (mkEntry id ts svc ev).event.resource
        = some { id := ev.resourceId, type := ev.resourceType, name := none,
                 path := none, metadata := none }) := by
  refine ⟨?_, ?_, ?_, ?_⟩
  · intro a h
    simp [mkEntry, normalizeEvent, h]
  · intro h
    simp [mkEntry, normalizeEvent, h]
  · intro r h
    simp [mkEntry, normalizeEvent, h]
  · intro h
    simp [mkEntry, normalizeEvent, h]

/-- Concrete full actor object used by the normalization witness. -/
def actorFull : AuditActor :=
  { id := some "real", type := some "service", name := none, ip := none,
    userAgent := none, sessionId := none, metadata := none }

/-- Event carrying both a full actor object and actor shorthand fields,
and only resource shorthand. -/
def evBoth : AuditEvent :=
  { evBase with actor := some actorFull }

theorem log_normalization_witness :
    (mkEntry "id0" 0 toySvc evBoth).event.actor = some actorFull
    ∧ (mkEntry "id0" 0 toySvc evBoth).event.resource
        = some { id := evBoth.resourceId, type := evBoth.resourceType,
                 name := none, path := none, metadata := none } :=
  ⟨(log_normalization "id0" 0 toySvc evBoth).1 actorFull rfl,
   (log_normalization "id0" 0 toySvc evBoth).2.2.2 rfl⟩

end NodeLogger
